import Mathlib

/-!
Verification of the tenant-isolation filter, note lifecycle, and search
façade of the Wave-notes MCP server.

Strings from the TypeScript source are modelled as `List Char` (Unicode
code points); JavaScript string operations (`includes`, `startsWith`,
`toLowerCase`, `trim`, slicing) are modelled as executable functions on
such lists.  Lexical comparison of folder keys is the usual
lexicographic order on code points, matching the byte order the search
service applies to ASCII keys.
-/

set_option autoImplicit false

namespace WaveNotes

/-- Model of JS `hay.startsWith(needle)` as `hasPre needle hay`. -/
def hasPre : List Char → List Char → Bool
  | [], _ => true
  | _ :: _, [] => false
  | a :: as, b :: bs => a = b && hasPre as bs

/-- Model of JS `hay.includes(needle)` as `includes hay needle`. -/
def includes : List Char → List Char → Bool
  | [], needle => needle.isEmpty
  | hay@(_ :: t), needle => hasPre needle hay || includes t needle

/-- Model of JS `hay.endsWith(suffix)` as `endsWith hay suffix`. -/
def endsWith (hay s : List Char) : Bool :=
  hasPre s.reverse hay.reverse

/-- Strict lexicographic order on character lists (code-point order). -/
def lexLt : List Char → List Char → Bool
  | [], [] => false
  | [], _ :: _ => true
  | _ :: _, [] => false
  | a :: as, b :: bs => if a < b then true else if a = b then lexLt as bs else false

/-- Non-strict lexicographic order on character lists. -/
def lexLe : List Char → List Char → Bool
  | [], _ => true
  | _ :: _, [] => false
  | a :: as, b :: bs => if a < b then true else if a = b then lexLe as bs else false

/-- Model of the JS `\s` character class (common whitespace). -/
def isJsSpace (c : Char) : Bool :=
  c = ' ' || c = '\t' || c = '\n' || c = '\r'

/-- ASCII lowercasing, modelling `String.prototype.toLowerCase` on the
ASCII titles and queries this system handles. -/
def lowerL (l : List Char) : List Char :=
  l.map Char.toLower

/-- Characters that occur in a `crypto.randomUUID()` output: lowercase
hex digits and the hyphen. -/
def isUuidChar (c : Char) : Bool :=
  ('0' ≤ c && c ≤ '9') || ('a' ≤ c && c ≤ 'f') || c = '-'

/-- Canonical `crypto.randomUUID()` shape: 36 characters over the UUID
alphabet with hyphens at positions 8, 13, 18 and 23. -/
def isUuidString (s : List Char) : Bool :=
  s.length = 36 && s.all isUuidChar &&
    (s.getD 8 'x' = '-' && s.getD 13 'x' = '-' && s.getD 18 'x' = '-' && s.getD 23 'x' = '-')

/-- Association-list lookup, modelling field access on a JS record. -/
def lookupKV {α : Type} : List (List Char × α) → List Char → Option α
  | [], _ => none
  | (k, v) :: rest, key => if k = key then some v else lookupKV rest key

/-- Model of `AutoRAGFilter` from `src/types.ts`: a predicate tree of comparison
clauses over string-valued metadata keys.  All values the code sends are
strings (folder bounds, and timestamps via `.toString()`). -/
inductive AutoRAGFilter where
  | eq (key : List Char) (value : List Char)
  | ne (key : List Char) (value : List Char)
  | gt (key : List Char) (value : List Char)
  | gte (key : List Char) (value : List Char)
  | lt (key : List Char) (value : List Char)
  | lte (key : List Char) (value : List Char)
  | and (filters : List AutoRAGFilter)
  | or (filters : List AutoRAGFilter)

def folderKey : List Char := "folder".data

def timestampKey : List Char := "timestamp".data

/-- The two user-isolation range clauses `folder >= "user/"` and
`folder < "user/z"`.  `createUserFolderFilter` and
`createAdvancedFilter` in `src/utils/autorag.ts` both inline exactly
these clauses. -/
def isolationClauses (user : List Char) : List AutoRAGFilter :=
  [AutoRAGFilter.gte folderKey (user ++ ("/".data)),
   AutoRAGFilter.lt folderKey (user ++ ("/z".data))]

/-- Model of `createUserFolderFilter` from `src/utils/autorag.ts`. -/
def createUserFolderFilter (user : List Char) : AutoRAGFilter :=
  AutoRAGFilter.and (isolationClauses user)

/-- JS `Number.prototype.toString()` on an integer value. -/
def intStr (t : Int) : List Char :=
  (toString t).data

/-- Model of `createAdvancedFilter` from `src/utils/autorag.ts`.  The source
pushes the timestamp clauses under `if (options.since_timestamp)` /
`if (options.until_timestamp)`: a JS number is truthy exactly when it
is nonzero (and not NaN), which the `t ≠ 0` guards model. -/
def createAdvancedFilter (user : List Char)
    (since_timestamp until_timestamp : Option Int) : AutoRAGFilter :=
  let base := isolationClauses user
  let withSince := match since_timestamp with
    | some t => if t ≠ 0 then base ++ [AutoRAGFilter.gte timestampKey (intStr t)] else base
    | none => base
  let withUntil := match until_timestamp with
    | some t => if t ≠ 0 then withSince ++ [AutoRAGFilter.lte timestampKey (intStr t)] else withSince
    | none => withSince
  AutoRAGFilter.and withUntil

/-- Milliseconds in a day, the `24 * 60 * 60 * 1000` of the handlers. -/
def dayMs : Int := 86400000

/-- The filter construction shared verbatim by the `search_notes_advanced`
and `ai_search_notes` handlers in `src/tools/search-tools` (unnamed
part_001): `since_timestamp = since_days ? now - since_days*86400000 :
undefined` (likewise `until`), then `createAdvancedFilter`.  The `d ≠ 0`
guards model the JS truthiness test `since_days ?`. -/
def advancedSearchFilters (user : List Char) (now : Int)
    (since_days until_days : Option Int) : AutoRAGFilter :=
  let since_timestamp := match since_days with
    | some d => if d ≠ 0 then some (now - d * dayMs) else none
    | none => none
  let until_timestamp := match until_days with
    | some d => if d ≠ 0 then some (now - d * dayMs) else none
    | none => none
  createAdvancedFilter user since_timestamp until_timestamp

mutual

/-- Lexical-range semantics of a filter evaluated against a folder key:
a comparison clause on the `folder` key compares the candidate path with
the clause value in lexicographic order, clauses on other keys do not
constrain the folder, and `and`/`or` combine their children. -/
def matchesFolder (f : AutoRAGFilter) (folder : List Char) : Bool :=
  match f with
  | .eq k v => if k = folderKey then folder = v else true
  | .ne k v => if k = folderKey then folder ≠ v else true
  | .gt k v => if k = folderKey then lexLt v folder else true
  | .gte k v => if k = folderKey then lexLe v folder else true
  | .lt k v => if k = folderKey then lexLt folder v else true
  | .lte k v => if k = folderKey then lexLe folder v else true
  | .and fs => matchesFolderAll fs folder
  | .or fs => matchesFolderAny fs folder

def matchesFolderAll (fs : List AutoRAGFilter) (folder : List Char) : Bool :=
  match fs with
  | [] => true
  | f :: rest => matchesFolder f folder && matchesFolderAll rest folder

def matchesFolderAny (fs : List AutoRAGFilter) (folder : List Char) : Bool :=
  match fs with
  | [] => false
  | f :: rest => matchesFolder f folder || matchesFolderAny rest folder

end

/-- Model of `UserPaths.getNotePath` from `src/utils.ts`: `user/<id>.md`. -/
def getNotePath (user noteId : List Char) : List Char :=
  user ++ ("/".data) ++ noteId ++ (".md".data)

/-- Model of `UserPaths.getMetadataPath` from `src/utils.ts`:
`user/.metadata/<id>.json`. -/
def getMetadataPath (user noteId : List Char) : List Char :=
  user ++ ("/.metadata/".data) ++ noteId ++ (".json".data)

/-- The six note classification tags of the `note_type` zod enum. -/
inductive NoteType where
  | meeting
  | idea
  | task
  | diary
  | code
  | other
deriving DecidableEq

/-- The wire string of a note type. -/
def noteTypeStr : NoteType → List Char
  | NoteType.meeting => "meeting".data
  | NoteType.idea => "idea".data
  | NoteType.task => "task".data
  | NoteType.diary => "diary".data
  | NoteType.code => "code".data
  | NoteType.other => "other".data

/-- The `typePrefix` lookup table of `generateTitle`. -/
def typePrefixOf : NoteType → List Char
  | NoteType.meeting => "Meeting Notes".data
  | NoteType.idea => "Idea".data
  | NoteType.task => "Task".data
  | NoteType.diary => "Journal Entry".data
  | NoteType.code => "Code Snippet".data
  | NoteType.other => "Note".data

/-- Sentence-ending characters of the `[^.!?]+[.!?]?` regex. -/
def isStopChar (c : Char) : Bool :=
  c = '.' || c = '!' || c = '?'

/-- JS `String.prototype.trim`. -/
def jsTrim (l : List Char) : List Char :=
  ((l.dropWhile isJsSpace).reverse.dropWhile isJsSpace).reverse

/-- Model of `text.split('\n')[0].trim()` of `generateTitle`. -/
def firstLineOf (text : List Char) : List Char :=
  jsTrim (text.takeWhile (fun c => c ≠ '\n'))

/-- Model of `text.match(/^[^.!?]+[.!?]?/)?.[0]`: the maximal nonempty leading
run of non-stop characters plus at most one following stop character;
`none` when the text is empty or starts with a stop character. -/
def firstSentenceOf (text : List Char) : Option (List Char) :=
  let run := text.takeWhile (fun c => !isStopChar c)
  if run.isEmpty then none
  else some (run ++ (text.dropWhile (fun c => !isStopChar c)).take 1)

/-- Model of `generateTitle` from `src/utils/metadata.ts` (unnamed part_000). -/
def generateTitle (text : List Char) (noteType : Option NoteType) : List Char :=
  let titleBase := ((firstSentenceOf text).getD (firstLineOf text)).take 50
  typePrefixOf (noteType.getD NoteType.other) ++ (": ".data) ++ titleBase ++
    (if 50 ≤ titleBase.length then ("...".data) else [])

/-- Word counting state machine equivalent to
`text.split(/\s+/).filter(word => word.length > 0).length`: the number
of maximal runs of non-whitespace characters. -/
def countWordsAux : Bool → List Char → Nat
  | _, [] => 0
  | inWord, c :: rest =>
    if isJsSpace c then countWordsAux false rest
    else (if inWord then 0 else 1) + countWordsAux true rest

/-- The `word_count` computation of the `create_note` handler. -/
def countWords (text : List Char) : Nat :=
  countWordsAux false text

/-- The `\w` character class. -/
def isWordChar (c : Char) : Bool :=
  ('a' ≤ c && c ≤ 'z') || ('A' ≤ c && c ≤ 'Z') || ('0' ≤ c && c ≤ '9') || c = '_'

/-- Global scan of the `/#(\w+)/g` regex of `extractTags`, returning
the captured groups (tag names without the leading `#`). -/
def scanTags : List Char → List (List Char)
  | [] => []
  | c :: rest =>
    if c = '#' then
      let w := rest.takeWhile isWordChar
      if w.isEmpty then scanTags rest
      else w :: scanTags (rest.drop w.length)
    else scanTags rest
termination_by l => l.length
decreasing_by
  · simp
  · simp [List.length_drop]; omega
  · simp

/-- Global scan of the `/https?:\/\/[^\s]+/g` regex of `extractLinks`. -/
def scanLinks : List Char → List (List Char)
  | [] => []
  | c :: rest =>
    if hasPre ("https://".data) (c :: rest) then
      let w := (rest.drop 7).takeWhile (fun ch => !isJsSpace ch)
      if w.isEmpty then scanLinks rest
      else (("https://".data) ++ w) :: scanLinks ((rest.drop 7).drop w.length)
    else if hasPre ("http://".data) (c :: rest) then
      let w := (rest.drop 6).takeWhile (fun ch => !isJsSpace ch)
      if w.isEmpty then scanLinks rest
      else (("http://".data) ++ w) :: scanLinks ((rest.drop 6).drop w.length)
    else scanLinks rest
termination_by l => l.length
decreasing_by
  · simp
  · simp [List.length_drop]; omega
  · simp
  · simp [List.length_drop]; omega
  · simp

/-- Model of `[...new Set(list)]`: deduplication keeping first occurrences. -/
def dedupAux : List (List Char) → List (List Char) → List (List Char)
  | [], _ => []
  | x :: xs, seen =>
    if x ∈ seen then dedupAux xs seen else x :: dedupAux xs (x :: seen)

/-- Model of `extractTags` from `src/utils/metadata.ts`. -/
def extractTags (text : List Char) : List (List Char) :=
  dedupAux ((scanTags text).map lowerL) []

/-- Model of `extractLinks` from `src/utils/metadata.ts`. -/
def extractLinks (text : List Char) : List (List Char) :=
  dedupAux (scanLinks text) []

/-- A JS record value as seen by `createCustomMetadata`. -/
inductive MetaVal where
  | str (s : List Char)
  | num (n : Nat)
  | nullV
  | undef
deriving DecidableEq

/-- JS `String(value)` (`typeof value === 'string' ? value : String(value)`). -/
def metaValString : MetaVal → List Char
  | MetaVal.str s => s
  | MetaVal.num n => (Nat.repr n).data
  | MetaVal.nullV => "null".data
  | MetaVal.undef => "undefined".data

/-- The `value !== null && value !== undefined` skip test, negated. -/
def isOmitted : MetaVal → Bool
  | MetaVal.nullV => true
  | MetaVal.undef => true
  | _ => false

/-- Model of `createCustomMetadata` from `src/utils/metadata.ts`: keeps entries
whose value is neither null nor undefined, stringifying each kept
value. -/
def createCustomMetadata : List (List Char × MetaVal) → List (List Char × List Char)
  | [] => []
  | (k, v) :: rest =>
    if isOmitted v then createCustomMetadata rest
    else (k, metaValString v) :: createCustomMetadata rest

/-- Model of `NoteMetadata` from `src/types.ts`. -/
structure NoteMetadata where
  id : List Char
  created_at : List Char
  created_timestamp : Nat
  title : List Char
  note_type : NoteType
  author : List Char
  char_count : Nat
  word_count : Nat
  version : Nat
deriving DecidableEq

/-- Model of `NoteSidecarData` from `src/types.ts`. -/
structure NoteSidecarData extends NoteMetadata where
  content_preview : List Char
  tags : List (List Char)
  links : List (List Char)
deriving DecidableEq

/-- An object stored in the R2 bucket: either primary markdown content
with its custom metadata, or a JSON metadata sidecar (stored without
custom metadata, and parsed back into its structured form on read). -/
inductive StoredValue where
  | text (content : List Char) (customMetadata : List (List Char × List Char))
  | sidecar (d : NoteSidecarData)
deriving DecidableEq

/-- The R2 bucket contents as an association list keyed by object key. -/
abbrev Store := List (List Char × StoredValue)

/-- Removal of every binding of a key. -/
def removeKey (store : Store) (k : List Char) : Store :=
  store.filter (fun p => p.1 ≠ k)

/-- R2 `put`: overwrite the binding of a key. -/
def putKey (store : Store) (k : List Char) (v : StoredValue) : Store :=
  (k, v) :: removeKey store k

/-- The metadata record assembled by the `create_note` handler.  The
`title || generateTitle(...)` fallback also fires on an empty provided
title (JS falsiness). -/
def buildNoteMetadata (user text : List Char) (title : Option (List Char))
    (note_type : NoteType) (id : List Char) (ts : Nat) (iso : List Char) : NoteMetadata :=
  { id := id
    created_at := iso
    created_timestamp := ts
    title :=
      match title with
      | some t => if t.isEmpty then generateTitle text (some note_type) else t
      | none => generateTitle text (some note_type)
    note_type := note_type
    author := user
    char_count := text.length
    word_count := countWords text
    version := 1 }

/-- The AutoRAG `context` line of the `create_note` handler. -/
def noteContext (m : NoteMetadata) : List Char :=
  noteTypeStr m.note_type ++ (" note by ".data) ++ m.author ++ (": ".data) ++
    m.title ++ (". Created: ".data) ++ m.created_at ++ (".".data)

/-- The record `{...metadata, context}` passed to `createCustomMetadata`
by the `create_note` handler, with JS object entry order. -/
def noteMetadataEntries (m : NoteMetadata) (context : List Char) :
    List (List Char × MetaVal) :=
  [("id".data, MetaVal.str m.id),
   ("created_at".data, MetaVal.str m.created_at),
   ("created_timestamp".data, MetaVal.num m.created_timestamp),
   ("title".data, MetaVal.str m.title),
   ("note_type".data, MetaVal.str (noteTypeStr m.note_type)),
   ("author".data, MetaVal.str m.author),
   ("char_count".data, MetaVal.num m.char_count),
   ("word_count".data, MetaVal.num m.word_count),
   ("version".data, MetaVal.num m.version),
   ("context".data, MetaVal.str context)]

/-- The JSON payload returned by `create_note`. -/
structure CreateResponse where
  id : List Char
  metadata : NoteMetadata
  storage_note : List Char
  storage_sidecar : List Char
deriving DecidableEq

/-- The `create_note` handler from `src/tools/note-tools` (registered in
`registerNoteTools`): assembles the metadata, puts the primary markdown
object with stringified custom metadata at `user/<id>.md`, puts the
sidecar at `user/.metadata/<id>.json`, and returns id, metadata and the
two storage paths.  The generated UUID and the call-time clock are
explicit inputs `id`, `ts`, `iso`. -/
def create_note (store : Store) (user text : List Char) (title : Option (List Char))
    (note_type : NoteType) (id : List Char) (ts : Nat) (iso : List Char) :
    CreateResponse × Store :=
  let metadata := buildNoteMetadata user text title note_type id ts iso
  let context := noteContext metadata
  let customMetadata := createCustomMetadata (noteMetadataEntries metadata context)
  let store1 := putKey store (getNotePath user id) (StoredValue.text text customMetadata)
  let sidecarData : NoteSidecarData :=
    { toNoteMetadata := metadata
      content_preview := text.take 200
      tags := extractTags text
      links := extractLinks text }
  let store2 := putKey store1 (getMetadataPath user id) (StoredValue.sidecar sidecarData)
  ({ id := id
     metadata := metadata
     storage_note := getNotePath user id
     storage_sidecar := getMetadataPath user id }, store2)

/-- The two payload shapes the `delete_note` handler can return on its
non-throwing paths: the structured "not found" result and the success
result.  (The handler wraps everything in try/catch, so neither path is
a thrown fault.) -/
inductive DeleteResponse where
  | notFound (note_id user_folder message : List Char)
  | deleted (id title user : List Char) (files_deleted : List (List Char)) (message : List Char)
deriving DecidableEq

/-- The `delete_note` handler: heads the primary object; when absent,
returns the structured not-found payload without touching the store;
when present, best-effort reads the sidecar title (empty or unreadable
titles fall back to "Unknown") and deletes both objects. -/
def delete_note (store : Store) (user note_id : List Char) : DeleteResponse × Store :=
  let notePath := getNotePath user note_id
  let metadataPath := getMetadataPath user note_id
  match lookupKV store notePath with
  | none =>
      (DeleteResponse.notFound note_id (user ++ ("/".data))
        (("No note found with ID: ".data) ++ note_id), store)
  | some _ =>
      let noteTitle :=
        match lookupKV store metadataPath with
        | some (StoredValue.sidecar d) =>
            if d.title.isEmpty then ("Unknown".data) else d.title
        | _ => ("Unknown".data)
      (DeleteResponse.deleted note_id noteTitle user [notePath, metadataPath]
        (("Successfully deleted note: \"".data) ++ noteTitle ++ ("\" (".data) ++
          note_id ++ (")".data)),
       removeKey (removeKey store notePath) metadataPath)

/-- A search result as consumed by `filterNoteResults`: only the
`filename` field is read by the filtering logic. -/
structure AutoRAGSearchResult where
  filename : Option (List Char)
deriving DecidableEq

/-- The metadata-sidecar namespace segment tested by
`filterNoteResults`. -/
def metadataSeg : List Char := "/.metadata/".data

/-- Model of `filterNoteResults` from `src/utils/autorag.ts`:
`result.filename && !result.filename.includes('/.metadata/')` (a missing
or empty filename is falsy in JS and the result is dropped). -/
def filterNoteResults (results : List AutoRAGSearchResult) : List AutoRAGSearchResult :=
  results.filter fun r =>
    match r.filename with
    | none => false
    | some f => !f.isEmpty && !includes f metadataSeg

/-- The JSON payload of a successful `search_notes_simple` call. -/
structure SimpleSearchResponse where
  user_folder : List Char
  search_query : List Char
  total_results : Nat
  filtered_results : Nat
  results : List AutoRAGSearchResult
deriving DecidableEq

/-- The response assembly of the `search_notes_simple` handler from the
external service's result list. -/
def search_notes_simple (user query : List Char) (data : List AutoRAGSearchResult) :
    SimpleSearchResponse :=
  let noteResults := filterNoteResults data
  { user_folder := user ++ ("/".data)
    search_query := query
    total_results := data.length
    filtered_results := noteResults.length
    results := noteResults }

/-- Model of `object.customMetadata || {}` of the fallback scan: sidecar objects
are written without custom metadata. -/
def customMetadataOf : StoredValue → List (List Char × List Char)
  | StoredValue.text _ cm => cm
  | StoredValue.sidecar _ => []

/-- R2 `list({prefix, limit})`. -/
def listObjects (store : Store) (pre : List Char) (cap : Nat) : Store :=
  (store.filter (fun p => hasPre pre p.1)).take cap

/-- Model of `metadata.title?.toLowerCase().includes(query.toLowerCase())`:
false when the title metadata is missing. -/
def titleHas (md : List (List Char × List Char)) (query : List Char) : Bool :=
  match lookupKV md ("title".data) with
  | none => false
  | some t => includes (lowerL t) (lowerL query)

/-- An entry of the fallback result list: `{key, metadata, score: 1.0}`. -/
structure FallbackEntry where
  key : List Char
  metadata : List (List Char × List Char)
  score : Nat
deriving DecidableEq

/-- The result-collection loop of the `search_notes_advanced` fallback. -/
def fallbackScan (listing : Store) (query : List Char) : List FallbackEntry :=
  match listing with
  | [] => []
  | (k, v) :: rest =>
    let md := customMetadataOf v
    if titleHas md query then
      { key := k, metadata := md, score := 1 } :: fallbackScan rest query
    else fallbackScan rest query

/-- The JSON payload of the `search_notes_advanced` fallback path. -/
structure FallbackResponse where
  results : List FallbackEntry
  total : Nat
  fallback : Bool
deriving DecidableEq

/-- The catch-branch of the `search_notes_advanced` handler: lists up to
1000 objects under `user/`, keeps those whose title metadata contains
the query case-insensitively, slices to `limit || 10`, and marks the
payload `fallback: true`. -/
def fallbackSearch (store : Store) (user query : List Char) (limit : Nat) : FallbackResponse :=
  let listing := listObjects store (user ++ ("/".data)) 1000
  let results := fallbackScan listing query
  { results := results.take (if limit = 0 then 10 else limit)
    total := results.length
    fallback := true }

/-- Outcome of the `/callback` route after the user profile has been
fetched: either the 403 denial page, or the application grant minted by
`completeAuthorization` (whose `login` prop is the email). -/
inductive CallbackResult where
  | denied (status : Nat) (body : List Char)
  | granted (login email name accessToken : List Char)
deriving DecidableEq

def deniedBodyPre : List Char :=
  ("\n<!DOCTYPE html>\n<html>\n<head>\n<title>Access Denied</title>\n<style>\nbody \x7b font-family: Arial, sans-serif; text-align: center; padding: 50px; \x7d\n.error \x7b color: #d32f2f; \x7d\n.user-info \x7b color: #666; margin-top: 20px; \x7d\n</style>\n</head>\n<body>\n<h1 class=\"error\">Access Denied</h1>\n<p>Sorry, you must use an account from the ".data)

def deniedBodyMid : List Char :=
  (" domain.</p>\n<p class=\"user-info\">You authenticated as: <strong>".data)

def deniedBodyPost : List Char :=
  ("</strong></p>\n<p>Please sign in with the correct domain account.</p>\n</body>\n</html>\n".data)

/-- The denial page of `src/google-handler.ts`, with the configured
domain and the attempted email interpolated. -/
def accessDeniedBody (dom email : List Char) : List Char :=
  deniedBodyPre ++ dom ++ deniedBodyMid ++ email ++ deniedBodyPost

/-- The hosted-domain gate of the `/callback` route in
`src/google-handler.ts`: when a hosted domain is configured
(`GOOGLE_HOSTED_DOMAIN` truthy) and the profile's `hd` claim is missing
or different, respond 403 with the denial page; otherwise call
`completeAuthorization` with `login := email`. -/
def callbackDomainCheck (hostedDomain : Option (List Char)) (hd : Option (List Char))
    (accessToken email name : List Char) : CallbackResult :=
  match hostedDomain with
  | some dom =>
      if hd = some dom then CallbackResult.granted email email name accessToken
      else CallbackResult.denied 403 (accessDeniedBody dom email)
  | none => CallbackResult.granted email email name accessToken

theorem slash_data : ("/".data) = ['/'] := rfl

theorem metaSeg_split : ("/.metadata/".data) = ['/'] ++ (".metadata/".data) := rfl

theorem hasPre_self_append (a b : List Char) : hasPre a (a ++ b) = true := by
  induction a with
  | nil => rfl
  | cons c as ih => simp [hasPre, ih]

theorem lexLe_self_append (a b : List Char) : lexLe a (a ++ b) = true := by
  induction a with
  | nil => rfl
  | cons c as ih =>
    show (if c < c then true else if c = c then lexLe as (as ++ b) else false) = true
    rw [if_neg (lt_irrefl c), if_pos rfl, ih]

theorem lexLe_append_left (a x y : List Char) : lexLe (a ++ x) (a ++ y) = lexLe x y := by
  induction a with
  | nil => rfl
  | cons c as ih =>
    show (if c < c then true else if c = c then lexLe (as ++ x) (as ++ y) else false) = lexLe x y
    rw [if_neg (lt_irrefl c), if_pos rfl, ih]

theorem lexLt_append_left (a x y : List Char) : lexLt (a ++ x) (a ++ y) = lexLt x y := by
  induction a with
  | nil => rfl
  | cons c as ih =>
    show (if c < c then true else if c = c then lexLt (as ++ x) (as ++ y) else false) = lexLt x y
    rw [if_neg (lt_irrefl c), if_pos rfl, ih]

theorem lexLt_cons_lt {a b : Char} (h : a < b) (as bs : List Char) :
    lexLt (a :: as) (b :: bs) = true := by
  show (if a < b then true else if a = b then lexLt as bs else false) = true
  rw [if_pos h]

/-- Any folder inside the half-open range `[u ++ "/", u ++ "/z")` is an
extension of the `u/` namespace: it has the shape `u ++ "/" ++ q`. -/
theorem range_shape (u : List Char) : ∀ (p : List Char),
    lexLe (u ++ ['/']) p = true → lexLt p (u ++ ['/', 'z']) = true →
    ∃ q, p = u ++ '/' :: q := by
  induction u with
  | nil =>
    intro p h1 h2
    cases p with
    | nil => simp [lexLe] at h1
    | cons c p' =>
      simp only [List.nil_append] at h1 h2
      rcases lt_trichotomy c '/' with hc | hc | hc
      · have h1' : lexLe ['/'] (c :: p') = false := by
          show (if '/' < c then true else if '/' = c then lexLe [] p' else false) = false
          rw [if_neg (asymm hc), if_neg (Ne.symm (ne_of_lt hc))]
        rw [h1'] at h1; simp at h1
      · exact ⟨p', by subst hc; rfl⟩
      · have h2' : lexLt (c :: p') ['/', 'z'] = false := by
          show (if c < '/' then true else if c = '/' then lexLt p' ['z'] else false) = false
          rw [if_neg (asymm hc), if_neg (ne_of_gt hc)]
        rw [h2'] at h2; simp at h2
  | cons a u' ih =>
    intro p h1 h2
    cases p with
    | nil => simp only [List.cons_append] at h1; simp [lexLe] at h1
    | cons c p' =>
      simp only [List.cons_append] at h1 h2
      rcases lt_trichotomy c a with hc | hc | hc
      · have h1' : lexLe (a :: (u' ++ ['/'])) (c :: p') = false := by
          show (if a < c then true else if a = c then lexLe (u' ++ ['/']) p' else false) = false
          rw [if_neg (asymm hc), if_neg (Ne.symm (ne_of_lt hc))]
        rw [h1'] at h1; simp at h1
      · subst hc
        have h1' : lexLe (u' ++ ['/']) p' = true := by
          have heq : lexLe (c :: (u' ++ ['/'])) (c :: p') = lexLe (u' ++ ['/']) p' := by
            show (if c < c then true else if c = c then lexLe (u' ++ ['/']) p' else false) = _
            rw [if_neg (lt_irrefl c), if_pos rfl]
          rwa [heq] at h1
        have h2' : lexLt p' (u' ++ ['/', 'z']) = true := by
          have heq : lexLt (c :: p') (c :: (u' ++ ['/', 'z'])) = lexLt p' (u' ++ ['/', 'z']) := by
            show (if c < c then true else if c = c then lexLt p' (u' ++ ['/', 'z']) else false) = _
            rw [if_neg (lt_irrefl c), if_pos rfl]
          rwa [heq] at h2
        obtain ⟨q, hq⟩ := ih p' h1' h2'
        exact ⟨q, by rw [hq]; rfl⟩
      · have h2' : lexLt (c :: p') (a :: (u' ++ ['/', 'z'])) = false := by
          show (if c < a then true else if c = a then lexLt p' (u' ++ ['/', 'z']) else false) = false
          rw [if_neg (asymm hc), if_neg (ne_of_gt hc)]
        rw [h2'] at h2; simp at h2

/-- If two namespace-prefixed paths coincide, one user string is a
prefix-extension of the other (or they are equal). -/
theorem append_slash_eq (u1 : List Char) : ∀ (u2 r q : List Char),
    u2 ++ '/' :: r = u1 ++ '/' :: q →
    u1 = u2 ∨ (∃ w, u2 = u1 ++ '/' :: w) ∨ (∃ t, u1 = u2 ++ '/' :: t) := by
  induction u1 with
  | nil =>
    intro u2 r q h
    cases u2 with
    | nil => exact Or.inl rfl
    | cons b u2' =>
      simp only [List.cons_append, List.nil_append] at h
      injection h with hb _
      exact Or.inr (Or.inl ⟨u2', by subst hb; rfl⟩)
  | cons a u1' ih =>
    intro u2 r q h
    cases u2 with
    | nil =>
      simp only [List.nil_append, List.cons_append] at h
      injection h with hb _
      exact Or.inr (Or.inr ⟨u1', by rw [← hb]; rfl⟩)
    | cons b u2' =>
      simp only [List.cons_append] at h
      injection h with hb ht
      subst hb
      rcases ih u2' r q ht with h1 | ⟨w, hw⟩ | ⟨t, htt⟩
      · exact Or.inl (by rw [h1])
      · exact Or.inr (Or.inl ⟨w, by rw [hw]; rfl⟩)
      · exact Or.inr (Or.inr ⟨t, by rw [htt]; rfl⟩)

/-- Unfolding of the user filter to the raw lexical range test. -/
theorem matchesFolder_userFilter (u p : List Char) :
    matchesFolder (createUserFolderFilter u) p =
      (lexLe (u ++ ['/']) p && lexLt p (u ++ ['/', 'z'])) := by
  show matchesFolderAll (isolationClauses u) p = _
  simp [matchesFolderAll, matchesFolder, isolationClauses, slash_data]

theorem uuidChar_lt_z {c : Char} (h : isUuidChar c = true) : c < 'z' := by
  simp only [isUuidChar, Bool.or_eq_true, Bool.and_eq_true, decide_eq_true_eq] at h
  rcases h with (⟨-, h⟩ | ⟨-, h⟩) | rfl
  · exact lt_of_le_of_lt h (by decide)
  · exact lt_of_le_of_lt h (by decide)
  · decide

/-- C1: for distinct users `u1 ≠ u2` whose namespace prefixes do not
extend one another (true of all slash-free user strings, hence of the
email addresses this system uses as users), the tenant filter built by
`createUserFolderFilter u1` matches every path `u1/<id>.md` and
`u1/.metadata/<id>.json` for a UUID-alphabet id, and matches no folder
path belonging to `u2`, under the lexical-range semantics of the AND of
its `gte` and `lt` clauses. -/
theorem createUserFolderFilter_tenant_isolation
    (u1 u2 id id2 : List Char)
    (hne : u1 ≠ u2)
    (h12 : hasPre (u1 ++ ['/']) u2 = false)
    (h21 : hasPre (u2 ++ ['/']) u1 = false)
    (hid : id.all isUuidChar = true) :
    matchesFolder (createUserFolderFilter u1) (getNotePath u1 id) = true ∧
    matchesFolder (createUserFolderFilter u1) (getMetadataPath u1 id) = true ∧
    matchesFolder (createUserFolderFilter u1) (getNotePath u2 id2) = false ∧
    matchesFolder (createUserFolderFilter u1) (getMetadataPath u2 id2) = false := by
  have zbound : u1 ++ ['/', 'z'] = (u1 ++ ['/']) ++ ['z'] :=
    (List.append_assoc u1 ['/'] ['z']).symm
  have hn1 : getNotePath u1 id = (u1 ++ ['/']) ++ (id ++ (".md".data)) := by
    simp [getNotePath, slash_data, List.append_assoc]
  have hm1 : getMetadataPath u1 id =
      (u1 ++ ['/']) ++ ((".metadata/".data) ++ (id ++ (".json".data))) := by
    simp [getMetadataPath, metaSeg_split, List.append_assoc]
  have hlt_id : lexLt (id ++ (".md".data)) ['z'] = true := by
    cases id with
    | nil => decide
    | cons c id' =>
      have hc : c < 'z' := uuidChar_lt_z (List.all_eq_true.mp hid c (List.mem_cons_self c id'))
      exact lexLt_cons_lt hc _ _
  have hmetaLt : lexLt ((".metadata/".data) ++ (id ++ (".json".data))) ['z'] = true := by
    have : (".metadata/".data) ++ (id ++ (".json".data)) =
        '.' :: (("metadata/".data) ++ (id ++ (".json".data))) := rfl
    rw [this]
    exact lexLt_cons_lt (by decide) _ _
  have key : ∀ rest : List Char,
      matchesFolder (createUserFolderFilter u1) (u2 ++ '/' :: rest) = false := by
    intro rest
    cases hmf : matchesFolder (createUserFolderFilter u1) (u2 ++ '/' :: rest) with
    | false => rfl
    | true =>
      exfalso
      rw [matchesFolder_userFilter] at hmf
      obtain ⟨hg, hl⟩ := Bool.and_eq_true_iff.mp hmf
      obtain ⟨q, hq⟩ := range_shape u1 _ hg hl
      rcases append_slash_eq u1 u2 rest q hq with h1 | ⟨w, hw⟩ | ⟨t, htt⟩
      · exact hne h1
      · have : hasPre (u1 ++ ['/']) u2 = true := by
          rw [hw, List.append_cons u1 '/' w]
          exact hasPre_self_append _ _
        rw [this] at h12; simp at h12
      · have : hasPre (u2 ++ ['/']) u1 = true := by
          rw [htt, List.append_cons u2 '/' t]
          exact hasPre_self_append _ _
        rw [this] at h21; simp at h21
  refine ⟨?_, ?_, ?_, ?_⟩
  · rw [matchesFolder_userFilter, hn1, zbound, lexLe_self_append, lexLt_append_left, hlt_id]
    rfl
  · rw [matchesFolder_userFilter, hm1, zbound, lexLe_self_append, lexLt_append_left, hmetaLt]
    rfl
  · have hn2 : getNotePath u2 id2 = u2 ++ '/' :: (id2 ++ (".md".data)) := by
      simp [getNotePath, slash_data, List.append_assoc]
    rw [hn2]; exact key _
  · have hm2 : getMetadataPath u2 id2 =
        u2 ++ '/' :: ((".metadata/".data) ++ (id2 ++ (".json".data))) := by
      simp [getMetadataPath, metaSeg_split, List.append_assoc]
    rw [hm2]; exact key _

/-- Witness for C1 at concrete distinct users and UUID-alphabet ids. -/
theorem createUserFolderFilter_tenant_isolation_witness :
    matchesFolder (createUserFolderFilter ("alice".data)) (getNotePath ("alice".data) ("1a".data)) = true ∧
    matchesFolder (createUserFolderFilter ("alice".data)) (getMetadataPath ("alice".data) ("1a".data)) = true ∧
    matchesFolder (createUserFolderFilter ("alice".data)) (getNotePath ("bob".data) ("2b".data)) = false ∧
    matchesFolder (createUserFolderFilter ("alice".data)) (getMetadataPath ("bob".data) ("2b".data)) = false :=
  createUserFolderFilter_tenant_isolation ("alice".data) ("bob".data) ("1a".data) ("2b".data)
    (by decide) (by decide) (by decide) (by decide)

/-- C2: for every user string, `createUserFolderFilter` returns exactly
the AND of the two clauses `folder >= "user/"` and `folder < "user/z"`,
and no other clauses. -/
theorem createUserFolderFilter_shape (user : List Char) :
    createUserFolderFilter user =
      AutoRAGFilter.and
        [AutoRAGFilter.gte ("folder".data) (user ++ ("/".data)),
         AutoRAGFilter.lt ("folder".data) (user ++ ("/z".data))] := rfl

/-- C6 counterexample: with the clock at 86400000 ms and
`since_days = 1` the computed since-timestamp is `0`, which is falsy in
JS, so both handlers send the bare two-clause isolation filter with no
timestamp clause even though `since_days` was provided. -/
theorem advancedSearchFilters_zero_timestamp_dropped :
    advancedSearchFilters ("u".data) 86400000 (some 1) none =
      AutoRAGFilter.and (isolationClauses ("u".data)) ∧
    (isolationClauses ("u".data)).length = 2 := ⟨rfl, rfl⟩

/-- C6 (amended): the filter sent by `search_notes_advanced` and
`ai_search_notes` is the user-isolation AND extended with a
`timestamp >= now - since_days*86400000` clause when `since_days` is
provided and the computed timestamp is nonzero, and with a
`timestamp <= now - until_days*86400000` clause when `until_days` is
provided and the computed timestamp is nonzero (values stringified);
a computed timestamp of exactly `0` is falsy in JS and its clause is
skipped; neither clause is added when the parameter is absent. -/
theorem advancedSearchFilters_clauses (user : List Char) (now : Int) (d d' : Int)
    (hd : d ≠ 0) (hd' : d' ≠ 0)
    (h0 : now - d * dayMs ≠ 0) (h0' : now - d' * dayMs ≠ 0) :
    advancedSearchFilters user now none none = AutoRAGFilter.and (isolationClauses user) ∧
    advancedSearchFilters user now (some d) none =
      AutoRAGFilter.and (isolationClauses user
        ++ [AutoRAGFilter.gte timestampKey (intStr (now - d * dayMs))]) ∧
    advancedSearchFilters user now none (some d') =
      AutoRAGFilter.and (isolationClauses user
        ++ [AutoRAGFilter.lte timestampKey (intStr (now - d' * dayMs))]) ∧
    advancedSearchFilters user now (some d) (some d') =
      AutoRAGFilter.and (isolationClauses user
        ++ [AutoRAGFilter.gte timestampKey (intStr (now - d * dayMs))]
        ++ [AutoRAGFilter.lte timestampKey (intStr (now - d' * dayMs))]) := by
  refine ⟨rfl, ?_, ?_, ?_⟩ <;>
    simp [advancedSearchFilters, createAdvancedFilter, hd, hd', h0, h0']

/-- Witness for C6 (amended) at a realistic clock value. -/
theorem advancedSearchFilters_clauses_witness :
    advancedSearchFilters ("u".data) 1700000000000 (some 1) (some 2) =
      AutoRAGFilter.and (isolationClauses ("u".data)
        ++ [AutoRAGFilter.gte timestampKey (intStr (1700000000000 - 1 * dayMs))]
        ++ [AutoRAGFilter.lte timestampKey (intStr (1700000000000 - 2 * dayMs))]) :=
  (advancedSearchFilters_clauses ("u".data) 1700000000000 1 2
    (by decide) (by decide) (by decide) (by decide)).2.2.2

/-- C3: every result in a `search_notes_simple` response, built from any
list of external search results, has a filename that does not contain
the metadata-sidecar segment `/.metadata/`. -/
theorem search_notes_simple_no_sidecar (user query : List Char)
    (data : List AutoRAGSearchResult) (r : AutoRAGSearchResult)
    (hr : r ∈ (search_notes_simple user query data).results)
    (f : List Char) (hf : r.filename = some f) :
    includes f metadataSeg = false := by
  have hmem : r ∈ filterNoteResults data := hr
  simp only [filterNoteResults] at hmem
  rw [List.mem_filter] at hmem
  obtain ⟨-, hcond⟩ := hmem
  simp only [hf] at hcond
  obtain ⟨-, h2⟩ := Bool.and_eq_true_iff.mp hcond
  simpa using h2

/-- Witness for C3 at a concrete result list containing a sidecar hit. -/
theorem search_notes_simple_no_sidecar_witness :
    (AutoRAGSearchResult.mk (some ("u/a.md".data)) ∈
      (search_notes_simple ("u".data) ("q".data)
        [AutoRAGSearchResult.mk (some ("u/a.md".data)),
         AutoRAGSearchResult.mk (some ("u/.metadata/a.json".data))]).results) ∧
    includes ("u/a.md".data) metadataSeg = false :=
  ⟨by decide,
   search_notes_simple_no_sidecar ("u".data) ("q".data)
     [AutoRAGSearchResult.mk (some ("u/a.md".data)),
      AutoRAGSearchResult.mk (some ("u/.metadata/a.json".data))]
     (AutoRAGSearchResult.mk (some ("u/a.md".data))) (by decide) ("u/a.md".data) rfl⟩

/-- C4: when no primary object exists at `user/<id>.md`, `delete_note`
returns the structured not-found payload on its normal (non-throwing)
path — not a fault — and performs no delete: the store is unchanged. -/
theorem delete_note_missing (store : Store) (user note_id : List Char)
    (h : lookupKV store (getNotePath user note_id) = none) :
    (delete_note store user note_id).1 =
      DeleteResponse.notFound note_id (user ++ ("/".data))
        (("No note found with ID: ".data) ++ note_id) ∧
    (delete_note store user note_id).2 = store := by
  simp [delete_note, h]

/-- Witness for C4 on the empty store. -/
theorem delete_note_missing_witness :
    lookupKV ([] : Store) (getNotePath ("u".data) ("x".data)) = none ∧
    (delete_note [] ("u".data) ("x".data)).2 = ([] : Store) :=
  ⟨rfl, (delete_note_missing [] ("u".data) ("x".data) rfl).2⟩

/-- C10: `delete_note` decides existence solely from the head of the
primary object `user/<id>.md`; when it is absent no delete is issued, so
an orphaned sidecar at `user/.metadata/<id>.json` is left bound to its
old value by every `delete_note` call for that id. -/
theorem delete_note_orphan_sidecar (store : Store) (user note_id : List Char)
    (v : StoredValue)
    (h : lookupKV store (getNotePath user note_id) = none)
    (hs : lookupKV store (getMetadataPath user note_id) = some v) :
    lookupKV (delete_note store user note_id).2 (getMetadataPath user note_id) = some v := by
  have h2 : (delete_note store user note_id).2 = store := by
    simp only [delete_note, h]
  rw [h2, hs]

/-- Witness for C10 on a store holding only an orphaned sidecar. -/
theorem delete_note_orphan_sidecar_witness :
    lookupKV (delete_note
        [(getMetadataPath ("u".data) ("x".data), StoredValue.text ("orphan".data) [])]
        ("u".data) ("x".data)).2
      (getMetadataPath ("u".data) ("x".data)) = some (StoredValue.text ("orphan".data) []) :=
  delete_note_orphan_sidecar
    [(getMetadataPath ("u".data) ("x".data), StoredValue.text ("orphan".data) [])]
    ("u".data) ("x".data) (StoredValue.text ("orphan".data) []) (by decide) (by decide)

theorem hasPre_getNotePath (user id : List Char) :
    hasPre (user ++ ['/']) (getNotePath user id) = true := by
  have h : getNotePath user id = (user ++ ['/']) ++ (id ++ (".md".data)) := by
    simp [getNotePath, slash_data, List.append_assoc]
  rw [h]
  exact hasPre_self_append _ _

theorem hasPre_getMetadataPath (user id : List Char) :
    hasPre (user ++ ['/']) (getMetadataPath user id) = true := by
  have h : getMetadataPath user id =
      (user ++ ['/']) ++ ((".metadata/".data) ++ (id ++ (".json".data))) := by
    simp [getMetadataPath, metaSeg_split, List.append_assoc]
  rw [h]
  exact hasPre_self_append _ _

theorem endsWith_append (a b : List Char) : endsWith (a ++ b) b = true := by
  simp only [endsWith, List.reverse_append]
  exact hasPre_self_append _ _

theorem endsWith_getNotePath (user id : List Char) :
    endsWith (getNotePath user id) (".md".data) = true := by
  rw [getNotePath]
  exact endsWith_append _ _

theorem endsWith_getMetadataPath (user id : List Char) :
    endsWith (getMetadataPath user id) (".json".data) = true := by
  rw [getMetadataPath]
  exact endsWith_append _ _

/-- C5: `create_note` with text "Buy milk" and note_type "task" returns
a response whose id is the generated UUID, whose title is derived from
the text (`Task: Buy milk`), whose word_count is 2, and whose two
storage paths lie under the caller's namespace and end in `.md` and
`.json` respectively. -/
theorem create_note_buy_milk (store : Store) (user id iso : List Char) (ts : Nat)
    (hid : isUuidString id = true) :
    (create_note store user ("Buy milk".data) none NoteType.task id ts iso).1.id = id ∧
    isUuidString (create_note store user ("Buy milk".data) none NoteType.task id ts iso).1.id = true ∧
    (create_note store user ("Buy milk".data) none NoteType.task id ts iso).1.metadata.title = ("Task: Buy milk".data) ∧
    (create_note store user ("Buy milk".data) none NoteType.task id ts iso).1.metadata.word_count = 2 ∧
    (create_note store user ("Buy milk".data) none NoteType.task id ts iso).1.storage_note = getNotePath user id ∧
    (create_note store user ("Buy milk".data) none NoteType.task id ts iso).1.storage_sidecar = getMetadataPath user id ∧
    hasPre (user ++ ['/']) (create_note store user ("Buy milk".data) none NoteType.task id ts iso).1.storage_note = true ∧
    hasPre (user ++ ['/']) (create_note store user ("Buy milk".data) none NoteType.task id ts iso).1.storage_sidecar = true ∧
    endsWith (create_note store user ("Buy milk".data) none NoteType.task id ts iso).1.storage_note (".md".data) = true ∧
    endsWith (create_note store user ("Buy milk".data) none NoteType.task id ts iso).1.storage_sidecar (".json".data) = true := by
  refine ⟨rfl, hid, ?_, ?_, rfl, rfl, ?_, ?_, ?_, ?_⟩
  · show generateTitle ("Buy milk".data) (some NoteType.task) = ("Task: Buy milk".data)
    decide
  · show countWords ("Buy milk".data) = 2
    decide
  · exact hasPre_getNotePath user id
  · exact hasPre_getMetadataPath user id
  · exact endsWith_getNotePath user id
  · exact endsWith_getMetadataPath user id

/-- Witness for C5 at a concrete UUID and clock value. -/
theorem create_note_buy_milk_witness :
    isUuidString ("123e4567-e89b-42d3-a456-426614174000".data) = true ∧
    (create_note [] ("u@x.co".data) ("Buy milk".data) none NoteType.task
      ("123e4567-e89b-42d3-a456-426614174000".data) 1700000000000
      ("2023-11-14T22:13:20.000Z".data)).1.metadata.title = ("Task: Buy milk".data) :=
  ⟨by decide,
   (create_note_buy_milk [] ("u@x.co".data) ("123e4567-e89b-42d3-a456-426614174000".data)
     ("2023-11-14T22:13:20.000Z".data) 1700000000000 (by decide)).2.2.1⟩

theorem includes_nil_needle (hay : List Char) : includes hay [] = true := by
  cases hay with
  | nil => rfl
  | cons c t => rfl

/-- A string contains any of its sandwiched segments. -/
theorem includes_append_mid (x n y : List Char) : includes (x ++ (n ++ y)) n = true := by
  induction x with
  | nil =>
    cases n with
    | nil => exact includes_nil_needle _
    | cons c n' =>
      show (hasPre (c :: n') ((c :: n') ++ y) || includes (n' ++ y) (c :: n')) = true
      rw [hasPre_self_append]
      rfl
  | cons a x' ih =>
    show (hasPre n ((a :: x') ++ (n ++ y)) || includes (x' ++ (n ++ y)) n) = true
    rw [ih, Bool.or_true]

/-- C7: when a hosted domain is configured and the fetched profile lacks
an `hd` claim or carries a different one, the callback returns the 403
denial response whose body contains the attempted user's email, and no
application grant is issued (`completeAuthorization` is never
reached). -/
theorem callback_domain_mismatch_denied (dom : List Char) (hd : Option (List Char))
    (tok email name : List Char) (h : hd ≠ some dom) :
    callbackDomainCheck (some dom) hd tok email name =
      CallbackResult.denied 403 (accessDeniedBody dom email) ∧
    includes (accessDeniedBody dom email) email = true ∧
    (∀ l e n t, callbackDomainCheck (some dom) hd tok email name ≠
      CallbackResult.granted l e n t) := by
  have hres : callbackDomainCheck (some dom) hd tok email name =
      CallbackResult.denied 403 (accessDeniedBody dom email) := by
    simp only [callbackDomainCheck]
    rw [if_neg h]
  refine ⟨hres, ?_, ?_⟩
  · have hb : accessDeniedBody dom email =
        ((deniedBodyPre ++ dom) ++ deniedBodyMid) ++ (email ++ deniedBodyPost) := by
      simp [accessDeniedBody, List.append_assoc]
    rw [hb]
    exact includes_append_mid _ _ _
  · intro l e n t hgr
    rw [hres] at hgr
    exact CallbackResult.noConfusion hgr

/-- Witness for C7: a profile from the wrong domain is denied and the
page names the attempted email. -/
theorem callback_domain_mismatch_denied_witness :
    (some ("evil.com".data) ≠ some ("corp.com".data)) ∧
    includes (accessDeniedBody ("corp.com".data) ("bob@evil.com".data)) ("bob@evil.com".data) = true :=
  ⟨by decide,
   (callback_domain_mismatch_denied ("corp.com".data) (some ("evil.com".data)) ("tok".data)
     ("bob@evil.com".data) ("Bob".data) (by decide)).2.1⟩

/-- Every entry produced by the fallback scan has matching title
metadata and originates from the listing. -/
theorem fallbackScan_mem (listing : Store) (query : List Char) (e : FallbackEntry)
    (he : e ∈ fallbackScan listing query) :
    titleHas e.metadata query = true ∧
    ∃ kv ∈ listing, kv.1 = e.key ∧ customMetadataOf kv.2 = e.metadata := by
  induction listing with
  | nil => simp [fallbackScan] at he
  | cons p rest ih =>
    obtain ⟨k, v⟩ := p
    simp only [fallbackScan] at he
    by_cases ht : titleHas (customMetadataOf v) query = true
    · rw [if_pos ht] at he
      rcases List.mem_cons.mp he with rfl | hmem
      · exact ⟨ht, ⟨(k, v), List.mem_cons_self _ _, rfl, rfl⟩⟩
      · obtain ⟨h1, kv, hkv, h2⟩ := ih hmem
        exact ⟨h1, kv, List.mem_cons_of_mem _ hkv, h2⟩
    · rw [if_neg ht] at he
      obtain ⟨h1, kv, hkv, h2⟩ := ih he
      exact ⟨h1, kv, List.mem_cons_of_mem _ hkv, h2⟩

/-- C8: on external-search failure, the `search_notes_advanced` handler
returns the fallback payload built from the prefix listing of the
caller's namespace: it is marked `fallback: true`, holds at most
`limit` entries, every entry comes from the listing with title metadata
containing the query case-insensitively, and it is exactly the matching
sublist whenever no truncation occurs. -/
theorem search_notes_advanced_fallback (store : Store) (user query : List Char)
    (limit : Nat) (hl : 1 ≤ limit) :
    (fallbackSearch store user query limit).fallback = true ∧
    (fallbackSearch store user query limit).results.length ≤ limit ∧
    (∀ e ∈ (fallbackSearch store user query limit).results,
      titleHas e.metadata query = true ∧
      ∃ kv ∈ listObjects store (user ++ ("/".data)) 1000,
        kv.1 = e.key ∧ customMetadataOf kv.2 = e.metadata) ∧
    ((fallbackScan (listObjects store (user ++ ("/".data)) 1000) query).length ≤ limit →
      (fallbackSearch store user query limit).results =
        fallbackScan (listObjects store (user ++ ("/".data)) 1000) query) := by
  have hres : (fallbackSearch store user query limit).results =
      (fallbackScan (listObjects store (user ++ ("/".data)) 1000) query).take limit := by
    simp only [fallbackSearch]
    rw [if_neg (by omega)]
  refine ⟨rfl, ?_, ?_, ?_⟩
  · rw [hres, List.length_take]
    exact Nat.min_le_left _ _
  · intro e he
    rw [hres] at he
    exact fallbackScan_mem _ _ _ ((List.take_sublist _ _).subset he)
  · intro hlen
    rw [hres]
    exact List.take_of_length_le hlen

/-- Witness for C8 on a store with one matching and one non-matching
object. -/
theorem search_notes_advanced_fallback_witness :
    (fallbackSearch
        [(("u/1.md".data), StoredValue.text ("hi".data) [(("title".data), ("Milk run".data))]),
         (("u/2.md".data), StoredValue.text ("yo".data) [(("title".data), ("Other".data))])]
        ("u".data) ("milk".data) 10).fallback = true ∧
    (fallbackSearch
        [(("u/1.md".data), StoredValue.text ("hi".data) [(("title".data), ("Milk run".data))]),
         (("u/2.md".data), StoredValue.text ("yo".data) [(("title".data), ("Other".data))])]
        ("u".data) ("milk".data) 10).results.length = 1 :=
  ⟨(search_notes_advanced_fallback
      [(("u/1.md".data), StoredValue.text ("hi".data) [(("title".data), ("Milk run".data))]),
       (("u/2.md".data), StoredValue.text ("yo".data) [(("title".data), ("Other".data))])]
      ("u".data) ("milk".data) 10 (by decide)).1,
   by decide⟩

theorem lookupKV_putKey_self (store : Store) (k : List Char) (v : StoredValue) :
    lookupKV (putKey store k v) k = some v := by
  simp [putKey, lookupKV]

theorem lookupKV_removeKey_ne (store : Store) (k k' : List Char) (h : k' ≠ k) :
    lookupKV (removeKey store k) k' = lookupKV store k' := by
  induction store with
  | nil => rfl
  | cons p rest ih =>
    obtain ⟨kk, vv⟩ := p
    by_cases hk : kk = k
    · have h1 : removeKey ((kk, vv) :: rest) k = removeKey rest k := by
        simp [removeKey, List.filter_cons, hk]
      have h2 : lookupKV ((kk, vv) :: rest) k' = lookupKV rest k' := by
        simp only [lookupKV]
        rw [if_neg (by rw [hk]; exact Ne.symm h)]
      rw [h1, ih, h2]
    · have h1 : removeKey ((kk, vv) :: rest) k = (kk, vv) :: removeKey rest k := by
        simp [removeKey, List.filter_cons, hk]
      rw [h1]
      by_cases hk' : kk = k'
      · simp only [lookupKV]
        rw [if_pos hk', if_pos hk']
      · simp only [lookupKV]
        rw [if_neg hk', if_neg hk', ih]

theorem notePath_ne_metadataPath (user id : List Char) :
    getNotePath user id ≠ getMetadataPath user id := by
  intro h
  have hlen := congrArg List.length h
  have l1 : ("/".data).length = 1 := rfl
  have l2 : (".md".data).length = 3 := rfl
  have l3 : ("/.metadata/".data).length = 11 := rfl
  have l4 : (".json".data).length = 5 := rfl
  simp only [getNotePath, getMetadataPath, List.length_append, l1, l2, l3, l4] at hlen
  omega

/-- C9: the custom metadata attached to the primary object put by
`create_note` is `createCustomMetadata` of the assembled record; every
value `createCustomMetadata` emits is the stringification of a source
field that is neither null nor undefined, and null/undefined fields are
omitted rather than stringified (removing them from the input record
leaves the output unchanged). -/
theorem create_note_custom_metadata_strings (m : List (List Char × MetaVal)) :
    (∀ p ∈ createCustomMetadata m, ∃ w, (p.1, w) ∈ m ∧ w ≠ MetaVal.nullV ∧
      w ≠ MetaVal.undef ∧ p.2 = metaValString w) ∧
    createCustomMetadata m = createCustomMetadata (m.filter (fun q => !isOmitted q.2)) ∧
    (∀ (store : Store) (user text : List Char) (title : Option (List Char))
      (note_type : NoteType) (id : List Char) (ts : Nat) (iso : List Char),
      lookupKV (create_note store user text title note_type id ts iso).2 (getNotePath user id) =
        some (StoredValue.text text (createCustomMetadata (noteMetadataEntries
          (buildNoteMetadata user text title note_type id ts iso)
          (noteContext (buildNoteMetadata user text title note_type id ts iso)))))) := by
  refine ⟨?_, ?_, ?_⟩
  · intro p hp
    induction m with
    | nil => simp [createCustomMetadata] at hp
    | cons q rest ih =>
      obtain ⟨k, v⟩ := q
      simp only [createCustomMetadata] at hp
      by_cases hv : isOmitted v = true
      · rw [if_pos hv] at hp
        obtain ⟨w, hw, h1, h2, h3⟩ := ih hp
        exact ⟨w, List.mem_cons_of_mem _ hw, h1, h2, h3⟩
      · rw [if_neg hv] at hp
        rcases List.mem_cons.mp hp with rfl | hmem
        · refine ⟨v, List.mem_cons_self _ _, ?_, ?_, rfl⟩
          · intro hnull; subst hnull; exact hv rfl
          · intro hund; subst hund; exact hv rfl
        · obtain ⟨w, hw, h1, h2, h3⟩ := ih hmem
          exact ⟨w, List.mem_cons_of_mem _ hw, h1, h2, h3⟩
  · induction m with
    | nil => rfl
    | cons q rest ih =>
      obtain ⟨k, v⟩ := q
      by_cases hv : isOmitted v = true
      · simp [createCustomMetadata, List.filter_cons, hv, ih]
      · simp [createCustomMetadata, List.filter_cons, hv, ih]
  · intro store user text title note_type id ts iso
    have hstep : (create_note store user text title note_type id ts iso).2 =
        putKey
          (putKey store (getNotePath user id)
            (StoredValue.text text (createCustomMetadata (noteMetadataEntries
              (buildNoteMetadata user text title note_type id ts iso)
              (noteContext (buildNoteMetadata user text title note_type id ts iso))))))
          (getMetadataPath user id)
          (StoredValue.sidecar
            { toNoteMetadata := buildNoteMetadata user text title note_type id ts iso
              content_preview := text.take 200
              tags := extractTags text
              links := extractLinks text }) := rfl
    rw [hstep, putKey]
    simp only [lookupKV]
    rw [if_neg (Ne.symm (notePath_ne_metadataPath user id))]
    rw [lookupKV_removeKey_ne _ _ _ (notePath_ne_metadataPath user id)]
    exact lookupKV_putKey_self _ _ _

/-- Witness for C9 on a record with a string field and a null field. -/
theorem create_note_custom_metadata_strings_witness :
    (∃ w, (("k".data), w) ∈ [(("k".data), MetaVal.str ("v".data)), (("n".data), MetaVal.nullV)] ∧
      w ≠ MetaVal.nullV ∧ w ≠ MetaVal.undef ∧ ("v".data) = metaValString w) ∧
    createCustomMetadata [(("k".data), MetaVal.str ("v".data)), (("n".data), MetaVal.nullV)] =
      createCustomMetadata
        ([(("k".data), MetaVal.str ("v".data)), (("n".data), MetaVal.nullV)].filter
          (fun q => !isOmitted q.2)) :=
  ⟨(create_note_custom_metadata_strings
      [(("k".data), MetaVal.str ("v".data)), (("n".data), MetaVal.nullV)]).1
      ((("k".data), ("v".data))) (by decide),
   (create_note_custom_metadata_strings
      [(("k".data), MetaVal.str ("v".data)), (("n".data), MetaVal.nullV)]).2.1⟩

end WaveNotes

